import Mathlib

/-!
# gravel: the mock DNS integration server (`dns/dns.go`)

A shallow embedding of `IntegrationServer` and of its three operations
`handleRecords`, `parseQuery` and `PreCheck`, followed by the properties
proved about them.

Conventions of the embedding.

* Go strings are Lean `String`s; `[]byte(s)` is the UTF-8 encoding of `s`.
* The map `TestRecords map[string]string` is a function
  `String → Option String`; a Go lookup `m[k]` is `(m k).getD ""`.
* An `RR` interface value is an `Option RR`: `none` is the nil interface.
* A Go run-time panic is an explicit outcome, never an exception of Lean.
* `crypto/sha256` and `encoding/base64` belong to the Go standard library and
  `dns.NewRR`, `dns.Client.Exchange` to `github.com/miekg/dns`.  The two
  standard-library functions are written out (FIPS 180-4, RFC 4648) so that
  digests can be evaluated.  The two calls into the DNS library are parameters
  of the operations that make them; `NewRR` below is the reading of the lines
  that `parseQuery` builds, written after the scanner of the library.
-/

/-! ## `crypto/sha256` -/

namespace sha256

/-- The digest size in bytes (`sha256.Size`). -/
def Size : Nat := 32

/-- The block size in bytes (`chunk`). -/
def chunk : Nat := 64

/-- The sixty-four round constants. -/
def K : List Nat :=
  [0x428a2f98, 0x71374491, 0xb5c0fbcf, 0xe9b5dba5, 0x3956c25b, 0x59f111f1, 0x923f82a4, 0xab1c5ed5,
   0xd807aa98, 0x12835b01, 0x243185be, 0x550c7dc3, 0x72be5d74, 0x80deb1fe, 0x9bdc06a7, 0xc19bf174,
   0xe49b69c1, 0xefbe4786, 0x0fc19dc6, 0x240ca1cc, 0x2de92c6f, 0x4a7484aa, 0x5cb0a9dc, 0x76f988da,
   0x983e5152, 0xa831c66d, 0xb00327c8, 0xbf597fc7, 0xc6e00bf3, 0xd5a79147, 0x06ca6351, 0x14292967,
   0x27b70a85, 0x2e1b2138, 0x4d2c6dfc, 0x53380d13, 0x650a7354, 0x766a0abb, 0x81c2c92e, 0x92722c85,
   0xa2bfe8a1, 0xa81a664b, 0xc24b8b70, 0xc76c51a3, 0xd192e819, 0xd6990624, 0xf40e3585, 0x106aa070,
   0x19a4c116, 0x1e376c08, 0x2748774c, 0x34b0bcb5, 0x391c0cb3, 0x4ed8aa4a, 0x5b9cca4f, 0x682e6ff3,
   0x748f82ee, 0x78a5636f, 0x84c87814, 0x8cc70208, 0x90befffa, 0xa4506ceb, 0xbef9a3f7, 0xc67178f2]

/-- Truncation to a `uint32`. -/
def u32 (x : Nat) : Nat := x % 2 ^ 32

/-- Rotation of a `uint32` to the right by `n` bits (`bits.RotateLeft32 x (-n)`). -/
def rotr (x n : Nat) : Nat := u32 ((x >>> n) ||| (x <<< (32 - n)))

/-- Complement of a `uint32`. -/
def not32 (x : Nat) : Nat := x ^^^ 0xffffffff

/-- The eight chaining words `h[0..7]` of a `digest`. -/
structure digest where
  h0 : Nat
  h1 : Nat
  h2 : Nat
  h3 : Nat
  h4 : Nat
  h5 : Nat
  h6 : Nat
  h7 : Nat
  deriving DecidableEq

/-- The initial chaining value set by `Reset`. -/
def init : digest :=
  ⟨0x6a09e667, 0xbb67ae85, 0x3c6ef372, 0xa54ff53a, 0x510e527f, 0x9b05688c, 0x1f83d9ab, 0x5be0cd19⟩

/-- Big-endian words of a byte sequence, four bytes at a time. -/
def beWords : List Nat → List Nat
  | a :: b :: c :: d :: rest => ((a <<< 24) ||| (b <<< 16) ||| (c <<< 8) ||| d) :: beWords rest
  | _ => []

/-- One step of the message schedule: `w[i]` from `w[i-2]`, `w[i-7]`, `w[i-15]`, `w[i-16]`,
where `i` is the number of words computed so far. -/
def scheduleStep (w : List Nat) : List Nat :=
  let i := w.length
  let v1 := w.getD (i - 2) 0
  let t1 := (rotr v1 17) ^^^ (rotr v1 19) ^^^ (v1 >>> 10)
  let v2 := w.getD (i - 15) 0
  let t2 := (rotr v2 7) ^^^ (rotr v2 18) ^^^ (v2 >>> 3)
  w ++ [u32 (t1 + w.getD (i - 7) 0 + t2 + w.getD (i - 16) 0)]

/-- The sixty-four schedule words of one block. -/
def schedule (p : List Nat) : List Nat :=
  Nat.iterate scheduleStep 48 (beWords (p.take chunk))

/-- One round of the compression function on the working variables `a … h`. -/
def round (s : digest) (kw : Nat × Nat) : digest :=
  let t1 := s.h7 + ((rotr s.h4 6) ^^^ (rotr s.h4 11) ^^^ (rotr s.h4 25))
              + ((s.h4 &&& s.h5) ^^^ ((not32 s.h4) &&& s.h6)) + kw.1 + kw.2
  let t2 := ((rotr s.h0 2) ^^^ (rotr s.h0 13) ^^^ (rotr s.h0 22))
              + ((s.h0 &&& s.h1) ^^^ (s.h0 &&& s.h2) ^^^ (s.h1 &&& s.h2))
  ⟨u32 (t1 + t2), s.h0, s.h1, s.h2, u32 (s.h3 + t1), s.h4, s.h5, s.h6⟩

/-- Compression of one 64-byte block into the chaining value (`blockGeneric`, one turn). -/
def block (d : digest) (p : List Nat) : digest :=
  let s := (K.zip (schedule p)).foldl round d
  ⟨u32 (d.h0 + s.h0), u32 (d.h1 + s.h1), u32 (d.h2 + s.h2), u32 (d.h3 + s.h3),
   u32 (d.h4 + s.h4), u32 (d.h5 + s.h5), u32 (d.h6 + s.h6), u32 (d.h7 + s.h7)⟩

/-- Compression of `n` consecutive blocks of `p`. -/
def blocks (d : digest) : Nat → List Nat → digest
  | 0, _ => d
  | n + 1, p => blocks (block d p) n (p.drop chunk)

/-- The padding written by `checkSum`: a `0x80` byte, zeros up to 56 bytes modulo 64, and the
bit length as a big-endian `uint64`. -/
def padding (len : Nat) : List Nat :=
  let t := if len % 64 < 56 then 56 - len % 64 else 64 + 56 - len % 64
  let bits := (len <<< 3) % 2 ^ 64
  (0x80 :: List.replicate (t - 1) 0) ++
    (List.range 8).map (fun i => (bits >>> (8 * (7 - i))) % 256)

/-- The four big-endian bytes of a `uint32`. -/
def be32 (x : Nat) : List Nat :=
  [(x >>> 24) % 256, (x >>> 16) % 256, (x >>> 8) % 256, x % 256]

/-- The digest of a byte sequence (`sha256.Sum256`), as its 32 bytes. -/
def Sum256 (data : List Nat) : List Nat :=
  let p := data ++ padding data.length
  let d := blocks init (p.length / chunk) p
  be32 d.h0 ++ be32 d.h1 ++ be32 d.h2 ++ be32 d.h3 ++
    be32 d.h4 ++ be32 d.h5 ++ be32 d.h6 ++ be32 d.h7

end sha256

/-! ## `encoding/base64` -/

namespace base64

/-- The URL-safe alphabet (`encodeURL`). -/
def encodeURL : String :=
  "ABCDEFGHIJKLMNOPQRSTUVWXYZabcdefghijklmnopqrstuvwxyz0123456789-_"

/-- The character for a six-bit value (`enc.encode[v]`). -/
def encode (v : Nat) : Char := encodeURL.data.getD v 'A'

/-- The characters of the unpadded URL-safe encoding (`RawURLEncoding.Encode`). -/
def Encode : List Nat → List Char
  | a :: b :: c :: rest =>
      let val := (a <<< 16) ||| (b <<< 8) ||| c
      encode ((val >>> 18) &&& 0x3F) :: encode ((val >>> 12) &&& 0x3F) ::
        encode ((val >>> 6) &&& 0x3F) :: encode (val &&& 0x3F) :: Encode rest
  | [a, b] =>
      let val := (a <<< 16) ||| (b <<< 8)
      [encode ((val >>> 18) &&& 0x3F), encode ((val >>> 12) &&& 0x3F),
       encode ((val >>> 6) &&& 0x3F)]
  | [a] =>
      let val := a <<< 16
      [encode ((val >>> 18) &&& 0x3F), encode ((val >>> 12) &&& 0x3F)]
  | [] => []

/-- The unpadded URL-safe encoding as a string (`RawURLEncoding.EncodeToString`). -/
def RawURLEncoding.EncodeToString (src : List Nat) : String := String.mk (Encode src)

end base64

/-- The bytes of a Go string (`[]byte(s)`): its UTF-8 encoding. -/
def bytesOf (s : String) : List Nat :=
  (s.data.flatMap String.utf8EncodeChar).map UInt8.toNat

/-! ## The part of `github.com/miekg/dns` that the server touches -/

namespace dns

/-- The record type number of TXT (`dns.TypeTXT`). -/
def TypeTXT : Nat := 16

/-- The record type number of A (`dns.TypeA`). -/
def TypeA : Nat := 1

/-- The class number of the Internet class (`dns.ClassINET`). -/
def ClassINET : Nat := 1

/-- A question of a message (`dns.Question`). -/
structure Question where
  Name : String
  Qtype : Nat
  Qclass : Nat
  deriving DecidableEq

/-- The header of a resource record (`dns.RR_Header`). -/
structure RR_Header where
  Name : String
  Rrtype : Nat
  Class : Nat
  Ttl : Nat
  deriving DecidableEq

/-- A non-nil resource record.  The constructor is the dynamic Go type that a type assertion
sees: `TXT` is a `*dns.TXT` with its text segments, `other` is a record of any other type. -/
inductive RR where
  | TXT (Hdr : RR_Header) (Txt : List String)
  | other (Hdr : RR_Header)
  deriving DecidableEq

/-- The question and answer sections of a message (`dns.Msg`).  An answer is an `RR` interface
value, `none` being nil. -/
structure Msg where
  Question : List Question
  Answer : List (Option RR)
  deriving DecidableEq

/-- The query built by `new(dns.Msg)` followed by `SetQuestion(z, t)`. -/
def SetQuestion (z : String) (t : Nat) : Msg :=
  { Question := [⟨z, t, ClassINET⟩], Answer := [] }

/-! ## The server of `dns/dns.go` -/

/-- Modelled from the spec: the type `DnsMessage`, whose declaration is not in `dns.go`; a
challenge submission with the two fields `handleRecords` reads, `Domain` and `KeyAuth`. -/
structure DnsMessage where
  Domain : String
  KeyAuth : String
  deriving DecidableEq

/-- The options of a server (`IntegrationServerOpts`), without its channel, logger and provider. -/
structure IntegrationServerOpts where
  AutoUpdateAuthZRecords : Bool
  AlreadyHashed : Bool
  BaseDomain : String
  DnsPort : Nat
  deriving DecidableEq

/-- The state of a server (`IntegrationServer`) that the three operations read or write: the
record store `TestRecords`, the log `Records` and the options. -/
structure IntegrationServer where
  TestRecords : String → Option String
  Records : List DnsMessage
  Opts : IntegrationServerOpts

/-- The options returned by `NewDefaultIntegrationServerOpts`. -/
def NewDefaultIntegrationServerOpts : IntegrationServerOpts :=
  { AutoUpdateAuthZRecords := true
    BaseDomain := "service"
    DnsPort := 5454
    AlreadyHashed := false }

/-- The server returned by `NewIntegrationServer`: an empty log, an empty record store, and port
54 in place of port 0. -/
def NewIntegrationServer (opts : IntegrationServerOpts) : IntegrationServer :=
  { Opts := if opts.DnsPort = 0 then { opts with DnsPort := 54 } else opts
    Records := []
    TestRecords := fun _ => none }

/-- The map assignment `m[k] = v`. -/
def mapSet (m : String → Option String) (k v : String) : String → Option String :=
  fun x => if x = k then some v else m x

/-- The map lookup `m[k]`, which is the empty string for a key without an entry. -/
def mapIndex (m : String → Option String) (k : String) : String := (m k).getD ""

/-- The name under which the record of a domain is stored. -/
def challengeName (domain : String) : String := "_acme-challenge." ++ domain ++ "."

/-- The value `handleRecords` stores for a key authorization: its digest, or the key
authorization itself when the records are already hashed. -/
def recordValue (opts : IntegrationServerOpts) (keyAuth : String) : String :=
  if !opts.AlreadyHashed then
    let keyAuthShaBytes := sha256.Sum256 (bytesOf keyAuth)
    base64.RawURLEncoding.EncodeToString (keyAuthShaBytes.take sha256.Size)
  else
    keyAuth

/-- One turn of the loop of `handleRecords`, for the message `msg` received on the channel. -/
def handleRecordsStep (srv : IntegrationServer) (msg : DnsMessage) : IntegrationServer :=
  let srv := { srv with Records := srv.Records ++ [msg] }
  if srv.Opts.AutoUpdateAuthZRecords then
    let value := recordValue srv.Opts msg.KeyAuth
    { srv with TestRecords := mapSet srv.TestRecords (challengeName msg.Domain) value }
  else
    srv

/-- The loop of `handleRecords` over the messages received so far, in arrival order. -/
def handleRecords (srv : IntegrationServer) (msgs : List DnsMessage) : IntegrationServer :=
  msgs.foldl handleRecordsStep srv

/-- The zone-file line that `parseQuery` hands to `dns.NewRR`:
`fmt.Sprintf("%s 60 IN TXT %s", name, txt)`. -/
def rrLine (name txt : String) : String := name ++ " 60 IN TXT " ++ txt

/-- The body of the loop of `parseQuery` for one question.  `newRR` is `dns.NewRR` with its error
dropped: the record parsed from a zone-file line, or nil. -/
def parseQuestion (newRR : String → Option RR) (srv : IntegrationServer) (m : Msg)
    (q : Question) : Msg :=
  if q.Qtype = TypeTXT then
    let txt := mapIndex srv.TestRecords q.Name
    if txt ≠ "" then
      let rr := newRR (rrLine q.Name txt)
      { m with Answer := m.Answer ++ [rr] }
    else
      m
  else
    m

/-- The message after `parseQuery`: the questions are visited in order. -/
def parseQuery (newRR : String → Option RR) (srv : IntegrationServer) (m : Msg) : Msg :=
  m.Question.foldl (parseQuestion newRR srv) m

/-- How a call ends: it returns `(b, e)`, with `e = none` for a nil error, or it panics. -/
inductive Outcome where
  | returned (b : Bool) (e : Option String)
  | panicked (reason : String)
  deriving DecidableEq

/-- The result of `PreCheck`.  `exchange` is `dnsClient.Exchange` towards the address of the
server: the reply, or a transport error.  The arguments `domain` and `check` are not used by the
source; `check` is left out. -/
def PreCheck (exchange : Msg → Except String Msg) (_domain fqdn value : String) : Outcome :=
  let msg := SetQuestion fqdn TypeTXT
  match exchange msg with
  | .error err => .returned false (some err)
  | .ok reply =>
    match reply.Answer with
    | [] => .panicked "index out of range [0] with length 0"
    | first :: _ =>
      match first with
      | some (RR.TXT _ Txt) =>
        if Txt.any (fun s => decide (s = value)) then .returned true none
        else .returned false none
      | _ => .returned false none

end dns

/-! ## The reading of zone-file lines by `dns.NewRR`, and the operations on the lock `mu` -/

namespace dns

/-- Whether a character has a meaning of its own for the zone-file scanner: blank, tab, line
feed, carriage return, double quote, semicolon, the two parentheses and the backslash. -/
def isSpecial (c : Char) : Bool :=
  c.toNat = 32 || c.toNat = 9 || c.toNat = 10 || c.toNat = 13 || c.toNat = 34 ||
    c.toNat = 59 || c.toNat = 40 || c.toNat = 41 || c.toNat = 92

/-- The length of a token in bytes (`len(l.token)`). -/
def byteLen (cs : List Char) : Nat := (bytesOf (String.mk cs)).length

/-- A token handed by the scanner to the reader of TXT data: a piece of text (`zString`), a
double quote (`zQuote`), or a scanning error. -/
inductive Token where
  | str (text : List Char)
  | quote
  | bad
  deriving DecidableEq

/-- The state of the scanner (`zlexer`) inside the data of a record: inside quotes, after a
backslash, inside a comment, the depth of parentheses, the text gathered for the current token
and the tokens already handed out. -/
structure Scan where
  quote : Bool
  escape : Bool
  commt : Bool
  brace : Nat
  str : List Char
  toks : List Token
  deriving DecidableEq

/-- The scanner state at the start of the data. -/
def Scan.start : Scan :=
  { quote := false, escape := false, commt := false, brace := 0, str := [], toks := [] }

/-- The state after the character `c` is added to the current token. -/
def Scan.push (s : Scan) (c : Char) (escape : Bool) : Scan :=
  { s with str := s.str ++ [c], escape := escape }

/-- The state after the current token, when it has text, is handed out. -/
def Scan.flush (s : Scan) : Scan :=
  if s.str = [] then { s with escape := false }
  else { s with toks := s.toks ++ [Token.str s.str], str := [], escape := false }

/-- The tokens of the data of one record (`zlexer.Next` up to the end of the record): the
scanner stops at a line feed outside quotes and parentheses, at a closing parenthesis without
an opening one, or at the end of the text, where an open parenthesis is an error. -/
def scan (s : Scan) : List Char → List Token
  | [] => if s.brace ≠ 0 then s.flush.toks ++ [Token.bad] else s.flush.toks
  | c :: cs =>
    if c.toNat = 32 ∨ c.toNat = 9 then
      if s.escape ∨ s.quote then scan (s.push c false) cs
      else if s.commt then scan s cs
      else scan s.flush cs
    else if c.toNat = 59 then
      if s.escape ∨ s.quote then scan (s.push c false) cs
      else scan { s.flush with commt := true } cs
    else if c.toNat = 13 then
      if s.quote then scan (s.push c false) cs
      else scan { s with escape := false } cs
    else if c.toNat = 10 then
      if s.quote then scan (s.push c false) cs
      else if s.commt then
        if s.brace = 0 then s.toks
        else scan { s with commt := false, escape := false } cs
      else if s.brace = 0 then s.flush.toks
      else scan { s with escape := false } cs
    else if c.toNat = 92 then
      if s.commt then scan s cs
      else if s.escape then scan (s.push c false) cs
      else scan (s.push c true) cs
    else if c.toNat = 34 then
      if s.commt then scan s cs
      else if s.escape then scan (s.push c false) cs
      else scan { s.flush with toks := s.flush.toks ++ [Token.quote], quote := !s.quote } cs
    else if c.toNat = 40 ∨ c.toNat = 41 then
      if s.commt then scan s cs
      else if s.escape ∨ s.quote then scan (s.push c false) cs
      else if c.toNat = 41 then
        if s.brace = 0 then s.toks ++ [Token.bad]
        else scan { s with brace := s.brace - 1 } cs
      else scan { s with brace := s.brace + 1 } cs
    else
      if s.commt then scan s cs
      else scan (s.push c false) cs

/-- The pieces of 255 bytes into which a longer token of one-byte characters is cut; the last
piece is what remains, which is empty when the length is a multiple of 255. -/
def chunk255 : Nat → List Char → List String
  | 0, cs => [String.mk cs]
  | n + 1, cs =>
    if 255 ≤ cs.length then String.mk (cs.take 255) :: chunk255 n (cs.drop 255)
    else [String.mk cs]

/-- The segments a text token contributes: itself when it has at most 255 bytes, its pieces of
255 bytes otherwise.  A longer token with a character of several bytes has no result here: its
pieces need not be strings of characters. -/
def segments (cs : List Char) : Option (List String) :=
  if byteLen cs ≤ 255 then some [String.mk cs]
  else if byteLen cs = cs.length then some (chunk255 cs.length cs)
  else none

/-- The text segments read from the tokens of the data (`endingToTxtSlice`): `quote` is whether
a quote is open, `empty` whether nothing followed the last quote. -/
def txtSlice (quote empty : Bool) : List Token → Option (List String)
  | [] => if quote then none else some []
  | Token.str cs :: ts =>
    match segments cs, txtSlice quote false ts with
    | some seg, some more => some (seg ++ more)
    | _, _ => none
  | Token.quote :: ts =>
    match txtSlice (!quote) true ts with
    | some more => if empty && quote then some ("" :: more) else some more
    | none => none
  | Token.bad :: _ => none

/-- A name with its closing dot (`dns.Fqdn`). -/
def Fqdn (name : List Char) : List Char :=
  if name.getLast? = some '.' then name else name ++ ['.']

/-- The loop of `dns.IsDomainName` over a name without backslash: two dots in a row, a label of
64 bytes or more, or more than 256 bytes up to a dot make the name invalid. -/
def domainLabels (wasDot : Bool) (labelLen off : Nat) : List Char → Bool
  | [] => true
  | c :: cs =>
    if c = '.' then
      if wasDot then false
      else if 64 ≤ labelLen then false
      else if 256 < off + 1 + labelLen then false
      else domainLabels true 0 (off + 1 + labelLen) cs
    else domainLabels false (labelLen + byteLen [c]) off cs

/-- Whether a name without backslash is a valid domain name (`dns.IsDomainName`). -/
def IsDomainName (name : List Char) : Bool :=
  name ≠ [] && domainLabels false 0 0 (Fqdn name)

/-- The upper-case form of a character as far as the names of directives go: the letters `a`
to `z`, and the two other characters whose upper-case form is such a letter. -/
def upper (c : Char) : Char :=
  if c.toNat = 0x131 then 'I' else if c.toNat = 0x17F then 'S' else c.toUpper

/-- Whether a first token is a directive (`$TTL`, `$ORIGIN`, `$INCLUDE`, `$GENERATE`). -/
def isDirective (owner : List Char) : Bool :=
  owner.map upper ∈ ["$TTL".data, "$ORIGIN".data, "$INCLUDE".data, "$GENERATE".data]

/-- The name of the record for the first token of the line (`toAbsoluteName` with the origin
`.`): the empty name when the line starts with a blank, the origin for `@`, the token with its
closing dot when it is a valid domain name.  A directive is followed here by data it cannot
read, and has no result. -/
def ownerName (owner : List Char) : Option String :=
  if owner = [] then some ""
  else if isDirective owner then none
  else if owner = ['@'] then some "."
  else if IsDomainName owner then some (String.mk (Fqdn owner))
  else none

/-- The text after the beginning `p` of a line, when the line begins so. -/
def stripStart : List Char → List Char → Option (List Char)
  | [], l => some l
  | _ :: _, [] => none
  | a :: p, b :: l => if a = b then stripStart p l else none

/-- The data of a record as the scanner gets it: `dns.NewRR` adds a line feed to a line that
does not end in one. -/
def withLineEnd (rdata : List Char) : List Char :=
  if rdata.getLast? = some (Char.ofNat 10) then rdata else rdata ++ [Char.ofNat 10]

/-- A model of `dns.NewRR` of `github.com/miekg/dns`, with its error dropped, on the lines
`parseQuery` builds.  The line is read as a first token free of special characters (the owner,
which is missing when the line starts with a blank), blanks or tabs, the text `60 IN TXT ` and
the data.  The owner is checked as `toAbsoluteName` does; the data is scanned as the library
does (blanks and tabs separate tokens, quotes group, a semicolon starts a comment, parentheses
continue a line, a backslash escapes) and every token is a text segment, cut in pieces of 255
bytes when longer.  A line whose beginning is not of this shape (the name carries a special
character other than blanks and tabs at its end) is answered nil, although the library reads
some such lines; text after a comment inside parentheses is taken as text even where the
library sees the name of a class or type. -/
def NewRR (line : String) : Option RR :=
  let owner := line.data.takeWhile (fun c => !isSpecial c)
  let rest := (line.data.dropWhile (fun c => !isSpecial c)).dropWhile
    (fun c => c.toNat = 32 || c.toNat = 9)
  match stripStart "60 IN TXT ".data rest with
  | none => none
  | some rdata =>
    match ownerName owner, txtSlice false false (scan Scan.start (withLineEnd rdata)) with
    | some name, some txt => some (RR.TXT ⟨name, TypeTXT, ClassINET, 60⟩ txt)
    | _, _ => none

/-- The opcode of a standard query (`dns.OpcodeQuery`). -/
def OpcodeQuery : Nat := 0

/-- An operation on the lock `mu` or on the state of the server that goroutines share. -/
inductive Op where
  | Lock
  | Unlock
  | RLock
  | RUnlock
  | logAppend (msg : DnsMessage)
  | mapWrite (key value : String)
  | mapRead (key : String)
  deriving DecidableEq

/-- The operations of one turn of `handleRecords` in program order: the append to `Records`,
then, with automatic updates, `mu.Lock()`, the assignment to `TestRecords` and `mu.Unlock()`. -/
def handleRecordsOps (opts : IntegrationServerOpts) (msg : DnsMessage) : List Op :=
  Op.logAppend msg ::
    (if opts.AutoUpdateAuthZRecords then
      [Op.Lock, Op.mapWrite (challengeName msg.Domain) (recordValue opts msg.KeyAuth), Op.Unlock]
    else
      [])

/-- The operations of `parseQuery` in program order: one lookup in `TestRecords` for each TXT
question, and no call on `mu`. -/
def parseQueryOps (m : Msg) : List Op :=
  m.Question.flatMap (fun q => if q.Qtype = TypeTXT then [Op.mapRead q.Name] else [])

/-- The operations of `handleDnsRequest` for a request with the given opcode, `m` being the
reply prepared by `SetReply`: those of `parseQuery` for a standard query, none otherwise. -/
def handleDnsRequestOps (opcode : Nat) (m : Msg) : List Op :=
  if opcode = OpcodeQuery then parseQueryOps m else []

/-- The two goroutines that touch the record store. -/
inductive Goroutine where
  | ingester
  | responder
  deriving DecidableEq

/-- The state of a `sync.RWMutex`: whether the write lock is held, and the number of read locks
held. -/
structure RWMutex where
  writer : Bool
  readers : Nat
  deriving DecidableEq

/-- The effect of an operation on the lock; `none` when the operation cannot proceed in this
state (the caller blocks, or unlocks a lock that is not held). -/
def RWMutex.apply (mu : RWMutex) : Op → Option RWMutex
  | .Lock => if mu.writer = false ∧ mu.readers = 0 then some { mu with writer := true } else none
  | .Unlock => if mu.writer = true then some { mu with writer := false } else none
  | .RLock => if mu.writer = false then some { mu with readers := mu.readers + 1 } else none
  | .RUnlock => if 0 < mu.readers then some { mu with readers := mu.readers - 1 } else none
  | _ => some mu

/-- Whether a schedule of operations can run from the lock state `mu`. -/
def runs (mu : RWMutex) : List (Goroutine × Op) → Bool
  | [] => true
  | (_, op) :: rest =>
    match mu.apply op with
    | some mu' => runs mu' rest
    | none => false

/-- Whether, in a schedule run from the lock state `mu`, some lookup in the map happens while
the write lock is held, that is inside the critical section of a writer. -/
def readsDuringWrite (mu : RWMutex) : List (Goroutine × Op) → Bool
  | [] => false
  | (_, op) :: rest =>
    match mu.apply op with
    | some mu' =>
      (match op with
        | .mapRead _ => mu.writer
        | _ => false) || readsDuringWrite mu' rest
    | none => false

/-- The operations of one goroutine in a schedule, in order. -/
def opsOf (g : Goroutine) (schedule : List (Goroutine × Op)) : List Op :=
  (schedule.filter (fun e => decide (e.1 = g))).map (fun e => e.2)

/-- Whether a string is free of the special characters of the scanner. -/
def plainText (s : String) : Bool := s.data.all (fun c => !isSpecial c)

/-- Whether a string is an owner name that `dns.NewRR` keeps as it is: free of special
characters, closed by a dot, and a valid domain name. -/
def absoluteName (s : String) : Bool :=
  plainText s && decide (s.data.getLast? = some '.') && IsDomainName s.data


end dns

/-! ## Facts about the digest and its encoding -/

namespace dns

/-- The digest has `sha256.Size` bytes, so the slice `keyAuthShaBytes[:sha256.Size]` is all of
it. -/
theorem Sum256_take_Size (data : List Nat) :
    (sha256.Sum256 data).take sha256.Size = sha256.Sum256 data := by
  simp [sha256.Sum256, sha256.be32, sha256.Size]

/-- The one-block test vector of FIPS 180-4: the digest of `abc`. -/
theorem Sum256_abc :
    sha256.Sum256 (bytesOf "abc") =
      [0xba, 0x78, 0x16, 0xbf, 0x8f, 0x01, 0xcf, 0xea, 0x41, 0x41, 0x40, 0xde, 0x5d, 0xae, 0x22,
       0x23, 0xb0, 0x03, 0x61, 0xa3, 0x96, 0x17, 0x7a, 0x9c, 0xb4, 0x10, 0xff, 0x61, 0xf2, 0x00,
       0x15, 0xad] := by
  decide!

/-- The two-block test vector of FIPS 180-4. -/
theorem Sum256_two_blocks :
    sha256.Sum256 (bytesOf "abcdbcdecdefdefgefghfghighijhijkijkljklmklmnlmnomnopnopq") =
      [0x24, 0x8d, 0x6a, 0x61, 0xd2, 0x06, 0x38, 0xb8, 0xe5, 0xc0, 0x26, 0x93, 0x0c, 0x3e, 0x60,
       0x39, 0xa3, 0x3c, 0xe4, 0x59, 0x64, 0xff, 0x21, 0x67, 0xf6, 0xec, 0xed, 0xd4, 0x19, 0xdb,
       0x06, 0xc1] := by
  decide!

/-- The test vectors of RFC 4648 without padding, and one that needs the URL-safe alphabet. -/
theorem EncodeToString_vectors :
    base64.RawURLEncoding.EncodeToString (bytesOf "") = "" ∧
      base64.RawURLEncoding.EncodeToString (bytesOf "f") = "Zg" ∧
      base64.RawURLEncoding.EncodeToString (bytesOf "fo") = "Zm8" ∧
      base64.RawURLEncoding.EncodeToString (bytesOf "foo") = "Zm9v" ∧
      base64.RawURLEncoding.EncodeToString (bytesOf "foob") = "Zm9vYg" ∧
      base64.RawURLEncoding.EncodeToString (bytesOf "fooba") = "Zm9vYmE" ∧
      base64.RawURLEncoding.EncodeToString (bytesOf "foobar") = "Zm9vYmFy" ∧
      base64.RawURLEncoding.EncodeToString [0xfb, 0xff, 0xbe] = "-_--" := by
  decide!

/-! ## Facts about the ingester `handleRecords` -/

/-- Distinct domains are stored under distinct names. -/
theorem challengeName_injective {a b : String} (h : challengeName a = challengeName b) :
    a = b := by
  unfold challengeName at h
  have h1 := congrArg String.data h
  simp only [String.data_append] at h1
  exact String.ext (List.append_cancel_left (List.append_cancel_right h1))

/-- A turn of the loop leaves the options alone. -/
theorem handleRecordsStep_Opts (srv : IntegrationServer) (msg : DnsMessage) :
    (handleRecordsStep srv msg).Opts = srv.Opts := by
  cases h : srv.Opts.AutoUpdateAuthZRecords <;> simp [handleRecordsStep, h]

/-- With automatic updates, a turn of the loop is one map assignment. -/
theorem handleRecordsStep_auto (srv : IntegrationServer) (msg : DnsMessage)
    (hauto : srv.Opts.AutoUpdateAuthZRecords = true) :
    (handleRecordsStep srv msg).TestRecords =
      mapSet srv.TestRecords (challengeName msg.Domain) (recordValue srv.Opts msg.KeyAuth) := by
  simp [handleRecordsStep, hauto]

/-- The loop leaves the options alone. -/
theorem handleRecords_Opts (msgs : List DnsMessage) (srv : IntegrationServer) :
    (handleRecords srv msgs).Opts = srv.Opts := by
  induction msgs generalizing srv with
  | nil => rfl
  | cons m ms ih =>
    show (handleRecords (handleRecordsStep srv m) ms).Opts = srv.Opts
    rw [ih, handleRecordsStep_Opts]

/-- The loop over a sequence extended by one message is the loop followed by one more turn. -/
theorem handleRecords_snoc (srv : IntegrationServer) (msgs : List DnsMessage) (m : DnsMessage) :
    handleRecords srv (msgs ++ [m]) = handleRecordsStep (handleRecords srv msgs) m := by
  simp [handleRecords, List.foldl_append]

/-- The record of a domain after the loop, from any store: the value of the last message for
the domain, or the record the store had when there is no such message. -/
theorem handleRecords_lookup (d : String) (msgs : List DnsMessage) (srv : IntegrationServer)
    (hauto : srv.Opts.AutoUpdateAuthZRecords = true) :
    (handleRecords srv msgs).TestRecords (challengeName d) =
      match (msgs.filter (fun m => decide (m.Domain = d))).getLast? with
      | some m => some (recordValue srv.Opts m.KeyAuth)
      | none => srv.TestRecords (challengeName d) := by
  induction msgs using List.reverseRecOn with
  | nil => rfl
  | append_singleton ms m ih =>
    rw [handleRecords_snoc, handleRecordsStep_auto _ _ (by rw [handleRecords_Opts]; exact hauto),
      handleRecords_Opts, List.filter_append]
    by_cases hd : m.Domain = d
    · simp [List.filter, hd, mapSet]
    · have hne : challengeName d ≠ challengeName m.Domain :=
        fun h => hd (challengeName_injective h).symm
      simp [List.filter, hd, mapSet, hne, ih]

/-- C1: with automatic updates and unhashed keys, after `handleRecords` has processed a
submission the record store maps `"_acme-challenge." + Domain + "."` to the unpadded URL-safe
base64 encoding of the SHA-256 digest of the UTF-8 bytes of `KeyAuth`, whatever the state
before. -/
theorem handleRecords_stores_digest (srv : IntegrationServer) (msg : DnsMessage)
    (hauto : srv.Opts.AutoUpdateAuthZRecords = true)
    (hhash : srv.Opts.AlreadyHashed = false) :
    (handleRecordsStep srv msg).TestRecords ("_acme-challenge." ++ msg.Domain ++ ".") =
      some (base64.RawURLEncoding.EncodeToString (sha256.Sum256 (bytesOf msg.KeyAuth))) := by
  rw [handleRecordsStep_auto srv msg hauto]
  simp [mapSet, challengeName, recordValue, hhash, Sum256_take_Size]

/-- The submission `{Domain: "service", KeyAuth: "abc123"}` on a fresh default server: the
record of `_acme-challenge.service.` is the digest of `abc123`. -/
theorem handleRecords_stores_digest_witness :
    (handleRecordsStep (NewIntegrationServer NewDefaultIntegrationServerOpts)
        ⟨"service", "abc123"⟩).TestRecords ("_acme-challenge." ++ "service" ++ ".") =
      some (base64.RawURLEncoding.EncodeToString (sha256.Sum256 (bytesOf "abc123"))) :=
  handleRecords_stores_digest (NewIntegrationServer NewDefaultIntegrationServerOpts)
    ⟨"service", "abc123"⟩ rfl rfl

/-- C7: with automatic updates and already hashed keys, after `handleRecords` has processed a
submission the record store maps `"_acme-challenge." + Domain + "."` to `KeyAuth` itself,
whatever the state before. -/
theorem handleRecords_stores_verbatim (srv : IntegrationServer) (msg : DnsMessage)
    (hauto : srv.Opts.AutoUpdateAuthZRecords = true)
    (hhash : srv.Opts.AlreadyHashed = true) :
    (handleRecordsStep srv msg).TestRecords ("_acme-challenge." ++ msg.Domain ++ ".") =
      some msg.KeyAuth := by
  rw [handleRecordsStep_auto srv msg hauto]
  simp [mapSet, challengeName, recordValue, hhash]

/-- A server for already hashed keys keeps the key authorization `abc 123` as it is. -/
theorem handleRecords_stores_verbatim_witness :
    (handleRecordsStep
        (NewIntegrationServer { NewDefaultIntegrationServerOpts with AlreadyHashed := true })
        ⟨"service", "abc 123"⟩).TestRecords ("_acme-challenge." ++ "service" ++ ".") =
      some "abc 123" :=
  handleRecords_stores_verbatim
    (NewIntegrationServer { NewDefaultIntegrationServerOpts with AlreadyHashed := true })
    ⟨"service", "abc 123"⟩ rfl rfl

/-- C9: without automatic updates, `handleRecords` appends the submission at the end of the log
`Records` and leaves the record store `TestRecords` as it was. -/
theorem handleRecords_log_only (srv : IntegrationServer) (msg : DnsMessage)
    (hauto : srv.Opts.AutoUpdateAuthZRecords = false) :
    (handleRecordsStep srv msg).Records = srv.Records ++ [msg] ∧
      (handleRecordsStep srv msg).TestRecords = srv.TestRecords := by
  simp [handleRecordsStep, hauto]

/-- A server without automatic updates that already logged one submission: the second one is
appended to the log and the store keeps its one record. -/
theorem handleRecords_log_only_witness :
    (handleRecordsStep
        { TestRecords := mapSet (fun _ => none) "_acme-challenge.a." "v"
          Records := [⟨"a", "k"⟩]
          Opts := { NewDefaultIntegrationServerOpts with AutoUpdateAuthZRecords := false } }
        ⟨"b", "k2"⟩).Records = [⟨"a", "k"⟩] ++ [⟨"b", "k2"⟩] ∧
      (handleRecordsStep
        { TestRecords := mapSet (fun _ => none) "_acme-challenge.a." "v"
          Records := [⟨"a", "k"⟩]
          Opts := { NewDefaultIntegrationServerOpts with AutoUpdateAuthZRecords := false } }
        ⟨"b", "k2"⟩).TestRecords = mapSet (fun _ => none) "_acme-challenge.a." "v" :=
  handleRecords_log_only
    { TestRecords := mapSet (fun _ => none) "_acme-challenge.a." "v"
      Records := [⟨"a", "k"⟩]
      Opts := { NewDefaultIntegrationServerOpts with AutoUpdateAuthZRecords := false } }
    ⟨"b", "k2"⟩ rfl

/-- C4: from an empty record store and with automatic updates, after `handleRecords` has
processed a sequence of submissions in arrival order, the record of a domain `d` at
`"_acme-challenge." + d + "."` is the value derived from the last submission for `d`, and
there is no record when the sequence has no submission for `d`; a further submission for
another domain leaves the record of `d` as it is. -/
theorem handleRecords_last_wins (srv : IntegrationServer) (msgs : List DnsMessage) (d : String)
    (hempty : ∀ k, srv.TestRecords k = none)
    (hauto : srv.Opts.AutoUpdateAuthZRecords = true) :
    (handleRecords srv msgs).TestRecords ("_acme-challenge." ++ d ++ ".") =
        ((msgs.filter (fun m => decide (m.Domain = d))).getLast?).map
          (fun m => recordValue srv.Opts m.KeyAuth) ∧
      ∀ m : DnsMessage, m.Domain ≠ d →
        (handleRecords srv (msgs ++ [m])).TestRecords ("_acme-challenge." ++ d ++ ".") =
          (handleRecords srv msgs).TestRecords ("_acme-challenge." ++ d ++ ".") := by
  constructor
  · have h := handleRecords_lookup d msgs srv hauto
    rw [hempty] at h
    show (handleRecords srv msgs).TestRecords (challengeName d) = _
    rw [h]
    cases (msgs.filter (fun m => decide (m.Domain = d))).getLast? <;> rfl
  · intro m hm
    have hauto2 : (handleRecords srv msgs).Opts.AutoUpdateAuthZRecords = true := by
      rw [handleRecords_Opts]; exact hauto
    have hne : challengeName d ≠ challengeName m.Domain :=
      fun h => hm (challengeName_injective h).symm
    show (handleRecords srv (msgs ++ [m])).TestRecords (challengeName d) =
      (handleRecords srv msgs).TestRecords (challengeName d)
    rw [handleRecords_snoc, handleRecordsStep_auto _ _ hauto2]
    simp [mapSet, hne]

/-- Three submissions on a fresh server for already hashed keys, two of them for `a`: the
record of `a` is the later value, and a submission for `b` does not touch it. -/
theorem handleRecords_last_wins_witness :
    (handleRecords
        (NewIntegrationServer { NewDefaultIntegrationServerOpts with AlreadyHashed := true })
        [⟨"a", "k1"⟩, ⟨"b", "k2"⟩, ⟨"a", "k3"⟩]).TestRecords ("_acme-challenge." ++ "a" ++ ".") =
      some "k3" :=
  (handleRecords_last_wins
    (NewIntegrationServer { NewDefaultIntegrationServerOpts with AlreadyHashed := true })
    [⟨"a", "k1"⟩, ⟨"b", "k2"⟩, ⟨"a", "k3"⟩] "a" (fun _ => rfl) rfl).1

end dns

/-! ## Facts about the reading of zone-file lines -/

namespace dns


theorem isSpecial_false_iff (c : Char) :
    isSpecial c = false ↔
      c.toNat ≠ 32 ∧ c.toNat ≠ 9 ∧ c.toNat ≠ 10 ∧ c.toNat ≠ 13 ∧ c.toNat ≠ 34 ∧
        c.toNat ≠ 59 ∧ c.toNat ≠ 40 ∧ c.toNat ≠ 41 ∧ c.toNat ≠ 92 := by
  simp [isSpecial, and_assoc]

theorem plainText_iff (s : String) :
    plainText s = true ↔ ∀ c ∈ s.data, isSpecial c = false := by
  simp [plainText, List.all_eq_true]

theorem takeWhile_plain (l1 l2 : List Char) (c : Char)
    (h1 : ∀ x ∈ l1, isSpecial x = false) (hc : isSpecial c = true) :
    (l1 ++ c :: l2).takeWhile (fun x => !isSpecial x) = l1 ∧
      (l1 ++ c :: l2).dropWhile (fun x => !isSpecial x) = c :: l2 := by
  induction l1 with
  | nil => simp [List.takeWhile, List.dropWhile, hc]
  | cons a l ih =>
    have ha : isSpecial a = false := h1 a (List.mem_cons_self a l)
    have := ih (fun x hx => h1 x (List.mem_cons_of_mem a hx))
    simp [List.takeWhile, List.dropWhile, ha, this]

theorem stripStart_append (p l : List Char) : stripStart p (p ++ l) = some l := by
  induction p with
  | nil => cases l <;> rfl
  | cons a p ih => simp [stripStart, ih]

theorem scan_push (s : Scan) (c : Char) (cs : List Char) (hc : isSpecial c = false)
    (hcommt : s.commt = false) :
    scan s (c :: cs) = scan (s.push c false) cs := by
  obtain ⟨h1, h2, h3, h4, h5, h6, h7, h8, h9⟩ := (isSpecial_false_iff c).1 hc
  rw [scan]
  simp [h1, h2, h3, h4, h5, h6, h7, h8, h9, hcommt]

theorem scan_plain (cs : List Char) (h : ∀ c ∈ cs, isSpecial c = false) :
    ∀ (e : Bool) (str : List Char) (toks : List Token), str ++ cs ≠ [] →
      scan ⟨false, e, false, 0, str, toks⟩ (cs ++ [Char.ofNat 10]) =
        toks ++ [Token.str (str ++ cs)] := by
  induction cs with
  | nil =>
    intro e str toks hne
    have hstr : str ≠ [] := by simpa using hne
    simp [scan, Scan.flush, hstr]
  | cons c cs ih =>
    intro e str toks _
    have hc : isSpecial c = false := h c (List.mem_cons_self c cs)
    rw [List.cons_append, scan_push _ c _ hc rfl]
    have := ih (fun x hx => h x (List.mem_cons_of_mem c hx)) false (str ++ [c]) toks (by simp)
    simpa [Scan.push] using this

theorem withLineEnd_plain (cs : List Char) (h : ∀ c ∈ cs, isSpecial c = false) :
    withLineEnd cs = cs ++ [Char.ofNat 10] := by
  unfold withLineEnd
  rw [if_neg]
  intro hl
  have hmem : Char.ofNat 10 ∈ cs := List.mem_of_getLast?_eq_some hl
  have := h _ hmem
  revert this
  decide

theorem ownerName_absolute (name : List Char) (hlast : name.getLast? = some '.')
    (hdom : IsDomainName name = true) :
    ownerName name = some (String.mk name) := by
  have hne : name ≠ [] := by
    intro h; rw [h] at hlast; cases hlast
  have hdir : isDirective name = false := by
    have hl : (name.map upper).getLast? = some '.' := by
      rw [List.getLast?_map, hlast]; rfl
    simp only [isDirective, decide_eq_false_iff_not, List.mem_cons, List.mem_singleton,
      List.not_mem_nil, or_false]
    rintro (h | h | h | h) <;> · rw [h] at hl; revert hl; decide
  have hat : name ≠ ['@'] := by
    intro h; rw [h] at hlast; revert hlast; decide
  simp [ownerName, hne, hdir, hat, hdom, Fqdn, hlast]

/-- The reading of a plain line: an owner name that is kept as it is and a value free of special
characters of at most 255 bytes give the TXT record with TTL 60 and the value as its one
segment. -/
theorem NewRR_plain (name v : String) (hname : absoluteName name = true)
    (hv : plainText v = true) (hne : v ≠ "") (hlen : byteLen v.data ≤ 255) :
    NewRR (name ++ " 60 IN TXT " ++ v) = some (RR.TXT ⟨name, TypeTXT, ClassINET, 60⟩ [v]) := by
  simp only [absoluteName, Bool.and_eq_true, decide_eq_true_eq] at hname
  obtain ⟨⟨hplain, hlast⟩, hdom⟩ := hname
  have hn := (plainText_iff name).1 hplain
  have hvp := (plainText_iff v).1 hv
  have hvne : v.data ≠ [] := fun h => hne (String.ext h)
  have hdata : (name ++ " 60 IN TXT " ++ v).data =
      name.data ++ ' ' :: ("60 IN TXT ".data ++ v.data) := by
    simp [String.data_append]
  obtain ⟨ht, hd⟩ := takeWhile_plain name.data ("60 IN TXT ".data ++ v.data) ' ' hn (by decide)
  have hblank : (' ' :: ("60 IN TXT ".data ++ v.data)).dropWhile
      (fun c => c.toNat = 32 || c.toNat = 9) = "60 IN TXT ".data ++ v.data := rfl
  have hstrip : stripStart "60 IN TXT ".data ("60 IN TXT ".data ++ v.data) =
      some v.data := stripStart_append "60 IN TXT ".data v.data
  have hscan : scan Scan.start (withLineEnd v.data) = [Token.str v.data] := by
    rw [withLineEnd_plain v.data hvp]
    have := scan_plain v.data hvp false [] [] (by simpa using hvne)
    simpa [Scan.start] using this
  have hseg : segments v.data = some [v] := by simp [segments, hlen]
  simp only [NewRR, hdata, ht, hd, hblank, hstrip, hscan, ownerName_absolute name.data hlast hdom,
    txtSlice, hseg]
  rfl


theorem encode_plain_lt : ∀ v, v < 64 →
    isSpecial (base64.encode v) = false ∧ byteLen [base64.encode v] = 1 := by
  decide!

theorem encode_plain (x : Nat) :
    isSpecial (base64.encode (x &&& 0x3F)) = false ∧ byteLen [base64.encode (x &&& 0x3F)] = 1 :=
  encode_plain_lt _ (Nat.and_lt_two_pow x (by decide : 0x3F < 2 ^ 6))

theorem Encode_plain : ∀ (n : Nat) (l : List Nat), l.length ≤ n →
    ∀ c ∈ base64.Encode l, isSpecial c = false ∧ byteLen [c] = 1 := by
  intro n
  induction n using Nat.strong_induction_on with
  | _ n ih =>
    intro l hl c hc
    match l, hl, hc with
    | [], _, hc => simp [base64.Encode] at hc
    | [a], _, hc =>
      simp only [base64.Encode, List.mem_cons, List.mem_singleton, List.not_mem_nil,
        or_false] at hc
      rcases hc with rfl | rfl <;> exact encode_plain _
    | [a, b], _, hc =>
      simp only [base64.Encode, List.mem_cons, List.mem_singleton, List.not_mem_nil,
        or_false] at hc
      rcases hc with rfl | rfl | rfl <;> exact encode_plain _
    | a :: b :: d :: rest, hl, hc =>
      simp only [base64.Encode, List.mem_cons] at hc
      rcases hc with rfl | rfl | rfl | rfl | hc
      · exact encode_plain _
      · exact encode_plain _
      · exact encode_plain _
      · exact encode_plain _
      · exact ih rest.length (by simp only [List.length_cons] at hl; omega) rest
          (Nat.le_refl _) c hc

theorem Encode_length_le : ∀ (n : Nat) (l : List Nat), l.length ≤ n →
    (base64.Encode l).length ≤ 2 * l.length := by
  intro n
  induction n using Nat.strong_induction_on with
  | _ n ih =>
    intro l hl
    match l, hl with
    | [], _ => simp [base64.Encode]
    | [a], _ => simp [base64.Encode]
    | [a, b], _ => simp [base64.Encode]
    | a :: b :: d :: rest, hl =>
      have := ih rest.length (by simp only [List.length_cons] at hl; omega) rest (Nat.le_refl _)
      simp only [base64.Encode, List.length_cons]
      omega

theorem byteLen_cons (c : Char) (cs : List Char) : byteLen (c :: cs) = byteLen [c] + byteLen cs := by
  simp [byteLen, bytesOf]

theorem byteLen_of_single (cs : List Char) (h : ∀ c ∈ cs, byteLen [c] = 1) :
    byteLen cs = cs.length := by
  induction cs with
  | nil => rfl
  | cons c cs ih =>
    rw [byteLen_cons, h c (List.mem_cons_self c cs),
      ih (fun x hx => h x (List.mem_cons_of_mem c hx)), List.length_cons]
    omega

theorem Sum256_length (data : List Nat) : (sha256.Sum256 data).length = 32 := by
  simp [sha256.Sum256, sha256.be32]

/-- The digest is free of special characters and has at most 255 bytes. -/
theorem digest_plain (data : List Nat) :
    plainText (base64.RawURLEncoding.EncodeToString (sha256.Sum256 data)) = true ∧
      byteLen (base64.RawURLEncoding.EncodeToString (sha256.Sum256 data)).data ≤ 255 := by
  have hall := Encode_plain _ (sha256.Sum256 data) (Nat.le_refl _)
  constructor
  · rw [plainText_iff]
    exact fun c hc => (hall c hc).1
  · show byteLen (base64.Encode (sha256.Sum256 data)) ≤ 255
    rw [byteLen_of_single _ (fun c hc => (hall c hc).2)]
    have := Encode_length_le _ (sha256.Sum256 data) (Nat.le_refl _)
    rw [Sum256_length] at this
    omega

/-- The name of a challenge is kept as it is by `dns.NewRR` when the domain is free of special
characters and the name is a valid domain name. -/
theorem challengeName_absolute (Domain : String) (hplain : plainText Domain = true)
    (hdom : IsDomainName ("_acme-challenge." ++ Domain ++ ".").data = true) :
    absoluteName ("_acme-challenge." ++ Domain ++ ".") = true := by
  have hd := (plainText_iff Domain).1 hplain
  have hp : plainText ("_acme-challenge." ++ Domain ++ ".") = true := by
    rw [plainText_iff]
    intro c hc
    simp only [String.data_append, List.mem_append] at hc
    rcases hc with (hc | hc) | hc
    · revert c; decide
    · exact hd c hc
    · revert c; decide
  have hl : ("_acme-challenge." ++ Domain ++ ".").data.getLast? = some '.' := by
    rw [String.data_append, List.getLast?_append]
    rfl
  simp only [absoluteName, hp, hl, hdom, decide_True, Bool.and_self]

end dns

/-! ## Facts about the responder `parseQuery` -/

namespace dns

/-- A question that is not for TXT, or whose name has no record, leaves the message alone. -/
theorem parseQuestion_skip (newRR : String → Option RR) (srv : IntegrationServer) (m : Msg)
    (q : Question) (h : q.Qtype ≠ TypeTXT ∨ srv.TestRecords q.Name = none) :
    parseQuestion newRR srv m q = m := by
  unfold parseQuestion
  rcases h with h | h
  · rw [if_neg h]
  · simp [mapIndex, h]

/-- A TXT question whose name has a non-empty record appends the record read from the line. -/
theorem parseQuestion_hit (newRR : String → Option RR) (srv : IntegrationServer) (m : Msg)
    (name v : String) (qclass : Nat) (hstored : srv.TestRecords name = some v) (hne : v ≠ "") :
    parseQuestion newRR srv m ⟨name, TypeTXT, qclass⟩ =
      { m with Answer := m.Answer ++ [newRR (rrLine name v)] } := by
  simp [parseQuestion, mapIndex, hstored, hne]

/-- The digest is never the empty string. -/
theorem digest_ne_empty (data : List Nat) :
    base64.RawURLEncoding.EncodeToString (sha256.Sum256 data) ≠ "" := by
  intro h
  have h1 := congrArg String.data h
  simp [base64.RawURLEncoding.EncodeToString, sha256.Sum256, sha256.be32, base64.Encode] at h1

/-- The claim C2 fails where the stored value or the name is not plain.  A stored empty value
gets no answer, whatever `dns.NewRR` does.  With the reading of the line by `dns.NewRR`: the
value `a b` is served as the two segments `a` and `b`; a value of 256 bytes is served as a
segment of 255 bytes and one of 1 byte; for the name `_acme-challenge..`, which is no domain
name, the answer is nil; for the name `service`, without closing dot, the record is for
`service.`; for the name `a b.` the answer is nil. -/
theorem parseQuery_empty_value_counterexample :
    (handleRecords
        (NewIntegrationServer { NewDefaultIntegrationServerOpts with AlreadyHashed := true })
        [⟨"service", ""⟩]).TestRecords "_acme-challenge.service." = some "" ∧
      (fun newRR : String → Option RR =>
        (parseQuery newRR
          (handleRecords
            (NewIntegrationServer { NewDefaultIntegrationServerOpts with AlreadyHashed := true })
            [⟨"service", ""⟩])
          (SetQuestion "_acme-challenge.service." TypeTXT)).Answer) = (fun _ => []) ∧
      (parseQuery NewRR
        (handleRecords
          (NewIntegrationServer { NewDefaultIntegrationServerOpts with AlreadyHashed := true })
          [⟨"service", "a b"⟩])
        (SetQuestion "_acme-challenge.service." TypeTXT)).Answer =
        [some (RR.TXT ⟨"_acme-challenge.service.", TypeTXT, ClassINET, 60⟩ ["a", "b"])] ∧
      (parseQuery NewRR
        (handleRecords
          (NewIntegrationServer { NewDefaultIntegrationServerOpts with AlreadyHashed := true })
          [⟨"service", String.mk (List.replicate 256 'a')⟩])
        (SetQuestion "_acme-challenge.service." TypeTXT)).Answer =
        [some (RR.TXT ⟨"_acme-challenge.service.", TypeTXT, ClassINET, 60⟩
          [String.mk (List.replicate 255 'a'), "a"])] ∧
      (parseQuery NewRR
        (handleRecords
          (NewIntegrationServer { NewDefaultIntegrationServerOpts with AlreadyHashed := true })
          [⟨"", "abc"⟩])
        (SetQuestion "_acme-challenge.." TypeTXT)).Answer = [none] ∧
      (parseQuery NewRR
        { TestRecords := mapSet (fun _ => none) "service" "abc"
          Records := []
          Opts := NewDefaultIntegrationServerOpts }
        (SetQuestion "service" TypeTXT)).Answer =
        [some (RR.TXT ⟨"service.", TypeTXT, ClassINET, 60⟩ ["abc"])] ∧
      (parseQuery NewRR
        { TestRecords := mapSet (fun _ => none) "a b." "abc"
          Records := []
          Opts := NewDefaultIntegrationServerOpts }
        (SetQuestion "a b." TypeTXT)).Answer = [none] := by
  refine ⟨by decide, rfl, by decide!, by decide!, by decide!, by decide!, by decide!⟩

/-- C2, amended: for a name with a stored value `v`, `parseQuery` on a message with a single TXT
question for the name and no answers leaves no answer when `v` is the empty string, and
otherwise exactly one answer, the result of `dns.NewRR` on the line `<name> 60 IN TXT <v>`,
nil included.  That answer is the TXT record for the name with TTL 60 and the single segment
`v` when the name is free of special characters, closed by a dot and a valid domain name, and
`v` is free of special characters and has at most 255 bytes. -/
theorem parseQuery_registered (srv : IntegrationServer) (name v : String) (qclass : Nat)
    (hstored : srv.TestRecords name = some v) :
    (v = "" → ∀ newRR : String → Option RR,
        parseQuery newRR srv { Question := [⟨name, TypeTXT, qclass⟩], Answer := [] } =
          { Question := [⟨name, TypeTXT, qclass⟩], Answer := [] }) ∧
      (v ≠ "" → ∀ newRR : String → Option RR,
        parseQuery newRR srv { Question := [⟨name, TypeTXT, qclass⟩], Answer := [] } =
          { Question := [⟨name, TypeTXT, qclass⟩],
            Answer := [newRR (name ++ " 60 IN TXT " ++ v)] }) ∧
      (v ≠ "" → absoluteName name = true → plainText v = true → byteLen v.data ≤ 255 →
        parseQuery NewRR srv { Question := [⟨name, TypeTXT, qclass⟩], Answer := [] } =
          { Question := [⟨name, TypeTXT, qclass⟩],
            Answer := [some (RR.TXT ⟨name, TypeTXT, ClassINET, 60⟩ [v])] }) := by
  have hhit : v ≠ "" → ∀ newRR : String → Option RR,
      parseQuery newRR srv { Question := [⟨name, TypeTXT, qclass⟩], Answer := [] } =
        { Question := [⟨name, TypeTXT, qclass⟩],
          Answer := [newRR (name ++ " 60 IN TXT " ++ v)] } := by
    intro hne newRR
    show parseQuestion newRR srv _ ⟨name, TypeTXT, qclass⟩ = _
    rw [parseQuestion_hit newRR srv _ name v qclass hstored hne]
    simp [rrLine]
  refine ⟨?_, hhit, ?_⟩
  · intro hv newRR
    show parseQuestion newRR srv _ ⟨name, TypeTXT, qclass⟩ = _
    simp [parseQuestion, mapIndex, hstored, hv]
  · intro hne hname hplain hlen
    rw [hhit hne NewRR, NewRR_plain name v hname hplain hne hlen]

/-- The record `ungWv48` stored for `_acme-challenge.service.` is served as one TXT answer with
TTL 60. -/
theorem parseQuery_registered_witness :
    parseQuery NewRR
        { TestRecords := mapSet (fun _ => none) "_acme-challenge.service." "ungWv48"
          Records := []
          Opts := NewDefaultIntegrationServerOpts }
        { Question := [⟨"_acme-challenge.service.", TypeTXT, ClassINET⟩], Answer := [] } =
      { Question := [⟨"_acme-challenge.service.", TypeTXT, ClassINET⟩],
        Answer := [some (RR.TXT ⟨"_acme-challenge.service.", TypeTXT, ClassINET, 60⟩
          ["ungWv48"])] } :=
  (parseQuery_registered
    { TestRecords := mapSet (fun _ => none) "_acme-challenge.service." "ungWv48"
      Records := []
      Opts := NewDefaultIntegrationServerOpts }
    "_acme-challenge.service." "ungWv48" ClassINET (by decide)).2.2
    (by decide) (by decide!) (by decide!) (by decide!)

/-- The message after `parseQuery` in closed form: each TXT question whose name has a non-empty
record contributes, in order, the record read from its line; nothing else changes. -/
theorem parseQuery_answers (newRR : String → Option RR) (srv : IntegrationServer) (m : Msg) :
    parseQuery newRR srv m =
      { m with Answer := m.Answer ++ m.Question.flatMap (fun q =>
          if q.Qtype = TypeTXT ∧ mapIndex srv.TestRecords q.Name ≠ "" then
            [newRR (rrLine q.Name (mapIndex srv.TestRecords q.Name))]
          else []) } := by
  have hfold : ∀ (qs : List Question) (m0 : Msg),
      qs.foldl (parseQuestion newRR srv) m0 =
        { m0 with Answer := m0.Answer ++ qs.flatMap (fun q =>
            if q.Qtype = TypeTXT ∧ mapIndex srv.TestRecords q.Name ≠ "" then
              [newRR (rrLine q.Name (mapIndex srv.TestRecords q.Name))]
            else []) } := by
    intro qs
    induction qs with
    | nil => intro m0; simp
    | cons q qs ih =>
      intro m0
      rw [List.foldl_cons, ih]
      by_cases ht : q.Qtype = TypeTXT
      · by_cases hv : mapIndex srv.TestRecords q.Name = ""
        · simp [parseQuestion, ht, hv]
        · simp [parseQuestion, ht, hv]
      · simp [parseQuestion, ht]
  exact hfold m.Question m

/-- C8: `parseQuery` appends no answer for a question that is not for TXT or whose name has no
record in the store: the answer section is the same as for the message without those
questions.  Hence a message made only of such questions, an empty question list included, comes
back as it was, and its answer section stays empty. -/
theorem parseQuery_no_answer (newRR : String → Option RR) (srv : IntegrationServer) (m : Msg) :
    (parseQuery newRR srv m).Answer =
        (parseQuery newRR srv { m with Question := m.Question.filter (fun q =>
          decide (q.Qtype = TypeTXT) && (srv.TestRecords q.Name).isSome) }).Answer ∧
      ((∀ q ∈ m.Question, q.Qtype ≠ TypeTXT ∨ srv.TestRecords q.Name = none) →
        parseQuery newRR srv m = m ∧ (m.Answer = [] → (parseQuery newRR srv m).Answer = [])) := by
  constructor
  · rw [parseQuery_answers, parseQuery_answers]
    dsimp only
    congr 1
    generalize m.Question = qs
    induction qs with
    | nil => rfl
    | cons q qs ih =>
      by_cases ht : q.Qtype = TypeTXT
      · cases hs : srv.TestRecords q.Name with
        | none =>
          have hv : mapIndex srv.TestRecords q.Name = "" := by simp [mapIndex, hs]
          rw [List.filter_cons_of_neg (by simp [hs]), List.flatMap_cons, ← ih]
          simp [hv]
        | some v =>
          rw [List.filter_cons_of_pos (by simp [ht, hs]), List.flatMap_cons, List.flatMap_cons,
            ← ih]
      · rw [List.filter_cons_of_neg (by simp [ht]), List.flatMap_cons, ← ih]
        simp [ht]
  · intro h
    have hfold : ∀ (qs : List Question) (m0 : Msg),
        (∀ q ∈ qs, q.Qtype ≠ TypeTXT ∨ srv.TestRecords q.Name = none) →
        qs.foldl (parseQuestion newRR srv) m0 = m0 := by
      intro qs
      induction qs with
      | nil => intro m0 _; rfl
      | cons q qs ih =>
        intro m0 hall
        rw [List.foldl_cons,
          parseQuestion_skip newRR srv m0 q (hall q (List.mem_cons_self q qs))]
        exact ih m0 (fun q1 hq1 => hall q1 (List.mem_cons_of_mem q hq1))
    have hm : parseQuery newRR srv m = m := hfold m.Question m h
    exact ⟨hm, fun he => by rw [hm]; exact he⟩

/-- An A question for a registered name and a TXT question for an unregistered name: no answer
is appended and the message comes back as it was. -/
theorem parseQuery_no_answer_witness :
    parseQuery NewRR
        (handleRecords (NewIntegrationServer NewDefaultIntegrationServerOpts)
          [⟨"service", "abc123"⟩])
        { Question := [⟨"_acme-challenge.service.", TypeA, ClassINET⟩,
            ⟨"_acme-challenge.other.", TypeTXT, ClassINET⟩], Answer := [] } =
      { Question := [⟨"_acme-challenge.service.", TypeA, ClassINET⟩,
          ⟨"_acme-challenge.other.", TypeTXT, ClassINET⟩], Answer := [] } :=
  ((parseQuery_no_answer NewRR
    (handleRecords (NewIntegrationServer NewDefaultIntegrationServerOpts)
      [⟨"service", "abc123"⟩])
    { Question := [⟨"_acme-challenge.service.", TypeA, ClassINET⟩,
        ⟨"_acme-challenge.other.", TypeTXT, ClassINET⟩], Answer := [] }).2
    (by
      intro q hq
      simp only [List.mem_cons, List.mem_singleton, List.not_mem_nil, or_false] at hq
      rcases hq with rfl | rfl
      · exact Or.inl (by decide)
      · exact Or.inr (by decide))).1

end dns

/-! ## Facts about the validator `PreCheck` -/

namespace dns

/-- The segments of a TXT record contain the value exactly when the loop of `PreCheck` finds
it. -/
theorem any_eq_value (value : String) (txt : List String) :
    (txt.any (fun s => decide (s = value)) = true) ↔ value ∈ txt := by
  simp only [List.any_eq_true, decide_eq_true_eq]
  exact ⟨fun ⟨_, hs, he⟩ => he ▸ hs, fun h => ⟨value, h, rfl⟩⟩

/-- The result of `PreCheck` on a reply whose first answer is a TXT record. -/
theorem PreCheck_txt (exchange : Msg → Except String Msg) (domain fqdn value : String)
    (reply : Msg) (hdr : RR_Header) (txt : List String) (rest : List (Option RR))
    (hreply : exchange (SetQuestion fqdn TypeTXT) = .ok reply)
    (hanswer : reply.Answer = some (RR.TXT hdr txt) :: rest) :
    PreCheck exchange domain fqdn value =
      if txt.any (fun s => decide (s = value)) then .returned true none
      else .returned false none := by
  simp only [PreCheck, hreply, hanswer]

/-- The result of `PreCheck` on a reply whose first answer is nil or of another type. -/
theorem PreCheck_not_txt (exchange : Msg → Except String Msg) (domain fqdn value : String)
    (reply : Msg) (first : Option RR) (rest : List (Option RR))
    (hreply : exchange (SetQuestion fqdn TypeTXT) = .ok reply)
    (hanswer : reply.Answer = first :: rest)
    (hfirst : ∀ hdr txt, first ≠ some (RR.TXT hdr txt)) :
    PreCheck exchange domain fqdn value = .returned false none := by
  rcases first with _ | ⟨hdr, txt⟩ | hdr
  · simp only [PreCheck, hreply, hanswer]
  · exact absurd rfl (hfirst hdr txt)
  · simp only [PreCheck, hreply, hanswer]

/-- C3, at the failing input: `PreCheck` panics on `reply.Answer[0]` for every reply with an
empty answer section, where `(false, nil)` is expected.  A fresh default server has no record
for `_acme-challenge.service.`, its reply to the TXT query is such a reply, and `PreCheck` on it
panics. -/
theorem PreCheck_panics_on_empty_answer :
    (∀ (exchange : Msg → Except String Msg) (domain fqdn value : String) (reply : Msg),
        exchange (SetQuestion fqdn TypeTXT) = .ok reply → reply.Answer = [] →
        PreCheck exchange domain fqdn value =
          .panicked "index out of range [0] with length 0") ∧
      (parseQuery NewRR (NewIntegrationServer NewDefaultIntegrationServerOpts)
        (SetQuestion "_acme-challenge.service." TypeTXT)).Answer = [] ∧
      PreCheck
        (fun m => .ok (parseQuery NewRR
          (NewIntegrationServer NewDefaultIntegrationServerOpts) m))
        "service" "_acme-challenge.service." "bKE9UspwyIPg8LsQHkJaiehiTeUdstI5JZOvaoQRgJA" =
        .panicked "index out of range [0] with length 0" := by
  refine ⟨?_, by decide, by decide⟩
  intro exchange domain fqdn value reply hreply hanswer
  simp only [PreCheck, hreply, hanswer]

/-- C5: on a reply without transport error that has at least one answer, `PreCheck` returns
`(true, nil)` exactly when the first answer is a TXT record one of whose text segments equals
the expected value, and `(false, nil)` otherwise; the answers after the first do not matter. -/
theorem PreCheck_first_answer (exchange : Msg → Except String Msg) (domain fqdn value : String)
    (reply : Msg) (first : Option RR) (rest : List (Option RR))
    (hreply : exchange (SetQuestion fqdn TypeTXT) = .ok reply)
    (hanswer : reply.Answer = first :: rest) :
    (PreCheck exchange domain fqdn value = .returned true none ↔
        ∃ hdr txt, first = some (RR.TXT hdr txt) ∧ value ∈ txt) ∧
      ((¬ ∃ hdr txt, first = some (RR.TXT hdr txt) ∧ value ∈ txt) →
        PreCheck exchange domain fqdn value = .returned false none) ∧
      ∀ rest2 : List (Option RR),
        PreCheck (fun _ => .ok { reply with Answer := first :: rest2 }) domain fqdn value =
          PreCheck exchange domain fqdn value := by
  rcases first with _ | ⟨hdr, txt⟩ | hdr
  · have hno : ∀ hdr txt, (none : Option RR) ≠ some (RR.TXT hdr txt) := by
      intro hdr txt h; cases h
    refine ⟨?_, ?_, ?_⟩
    · rw [PreCheck_not_txt exchange domain fqdn value reply none rest hreply hanswer hno]
      simp
    · intro _
      exact PreCheck_not_txt exchange domain fqdn value reply none rest hreply hanswer hno
    · intro rest2
      rw [PreCheck_not_txt exchange domain fqdn value reply none rest hreply hanswer hno]
      exact PreCheck_not_txt _ domain fqdn value _ none rest2 rfl rfl hno
  · have hres := PreCheck_txt exchange domain fqdn value reply hdr txt rest hreply hanswer
    refine ⟨?_, ?_, ?_⟩
    · rw [hres]
      by_cases hv : value ∈ txt
      · rw [if_pos ((any_eq_value value txt).2 hv)]
        exact ⟨fun _ => ⟨hdr, txt, rfl, hv⟩, fun _ => rfl⟩
      · rw [if_neg (fun h => hv ((any_eq_value value txt).1 h))]
        constructor
        · intro h; cases h
        · rintro ⟨hdr2, txt2, heq, hmem⟩
          cases heq
          exact absurd hmem hv
    · intro hno
      rw [hres, if_neg (fun h => hno ⟨hdr, txt, rfl, (any_eq_value value txt).1 h⟩)]
    · intro rest2
      rw [hres]
      exact PreCheck_txt _ domain fqdn value _ hdr txt rest2 rfl rfl
  · have hno : ∀ hdr2 txt, some (RR.other hdr) ≠ some (RR.TXT hdr2 txt) := by
      intro hdr2 txt h; cases h
    refine ⟨?_, ?_, ?_⟩
    · rw [PreCheck_not_txt exchange domain fqdn value reply _ rest hreply hanswer hno]
      simp
    · intro _
      exact PreCheck_not_txt exchange domain fqdn value reply _ rest hreply hanswer hno
    · intro rest2
      rw [PreCheck_not_txt exchange domain fqdn value reply _ rest hreply hanswer hno]
      exact PreCheck_not_txt _ domain fqdn value _ _ rest2 rfl rfl hno

/-- A reply whose first answer is a TXT record with the segments `x` and `v`, followed by an
A record: `PreCheck` for the value `v` returns `(true, nil)`. -/
theorem PreCheck_first_answer_witness :
    PreCheck
        (fun _ => .ok { Question := [⟨"_acme-challenge.service.", TypeTXT, ClassINET⟩],
                        Answer := [some (RR.TXT ⟨"_acme-challenge.service.", TypeTXT, ClassINET, 60⟩
                          ["x", "v"]),
                          some (RR.other ⟨"_acme-challenge.service.", TypeA, ClassINET, 60⟩)] })
        "service" "_acme-challenge.service." "v" = .returned true none :=
  (PreCheck_first_answer
    (fun _ => .ok { Question := [⟨"_acme-challenge.service.", TypeTXT, ClassINET⟩],
                    Answer := [some (RR.TXT ⟨"_acme-challenge.service.", TypeTXT, ClassINET, 60⟩
                      ["x", "v"]),
                      some (RR.other ⟨"_acme-challenge.service.", TypeA, ClassINET, 60⟩)] })
    "service" "_acme-challenge.service." "v"
    { Question := [⟨"_acme-challenge.service.", TypeTXT, ClassINET⟩],
      Answer := [some (RR.TXT ⟨"_acme-challenge.service.", TypeTXT, ClassINET, 60⟩ ["x", "v"]),
        some (RR.other ⟨"_acme-challenge.service.", TypeA, ClassINET, 60⟩)] }
    (some (RR.TXT ⟨"_acme-challenge.service.", TypeTXT, ClassINET, 60⟩ ["x", "v"]))
    [some (RR.other ⟨"_acme-challenge.service.", TypeA, ClassINET, 60⟩)]
    rfl rfl).1.2
    ⟨⟨"_acme-challenge.service.", TypeTXT, ClassINET, 60⟩, ["x", "v"], rfl, by decide⟩

/-- The claim C6 fails for a domain that gives no valid name.  After the submission
`{Domain: "", KeyAuth: "abc123"}` on a fresh default server the digest is stored for
`_acme-challenge..`; `dns.NewRR` rejects the line for that name and `parseQuery` appends the nil
record in place of a TXT answer.  `PreCheck` with the digest returns `(false, nil)` on that
reply, and `(false, err)` when the exchange ends in an error instead: never `(true, nil)`. -/
theorem ingest_query_precheck_counterexample :
    (handleRecordsStep (NewIntegrationServer NewDefaultIntegrationServerOpts)
        ⟨"", "abc123"⟩).TestRecords ("_acme-challenge." ++ "" ++ ".") =
        some "bKE9UspwyIPg8LsQHkJaiehiTeUdstI5JZOvaoQRgJA" ∧
      (parseQuery NewRR
        (handleRecordsStep (NewIntegrationServer NewDefaultIntegrationServerOpts)
          ⟨"", "abc123"⟩)
        (SetQuestion ("_acme-challenge." ++ "" ++ ".") TypeTXT)).Answer = [none] ∧
      PreCheck
        (fun m => .ok (parseQuery NewRR
          (handleRecordsStep (NewIntegrationServer NewDefaultIntegrationServerOpts)
            ⟨"", "abc123"⟩) m))
        "" ("_acme-challenge." ++ "" ++ ".") "bKE9UspwyIPg8LsQHkJaiehiTeUdstI5JZOvaoQRgJA" =
        .returned false none ∧
      (fun err : String =>
        PreCheck (fun _ => .error err)
          "" ("_acme-challenge." ++ "" ++ ".")
          "bKE9UspwyIPg8LsQHkJaiehiTeUdstI5JZOvaoQRgJA") =
        (fun err => .returned false (some err)) := by
  refine ⟨by decide!, by decide!, by decide!, rfl⟩

/-- C6, amended: under the default configuration, after `handleRecords` has ingested a
submission, the answer of `parseQuery` to the single TXT question for
`"_acme-challenge." + Domain + "."` is the result of `dns.NewRR` on the line for the digest of
`KeyAuth`.  When `Domain` is free of special characters and that name is a valid domain name,
the answer is one TXT record whose text is the unpadded URL-safe base64 of the SHA-256 digest
of `KeyAuth`, and `PreCheck` on that reply with that digest returns `(true, nil)`. -/
theorem ingest_query_precheck (exchange : Msg → Except String Msg)
    (srv : IntegrationServer) (Domain KeyAuth : String)
    (hauto : srv.Opts.AutoUpdateAuthZRecords = true)
    (hhash : srv.Opts.AlreadyHashed = false)
    (hplain : plainText Domain = true)
    (hdom : IsDomainName ("_acme-challenge." ++ Domain ++ ".").data = true)
    (hexchange : exchange (SetQuestion ("_acme-challenge." ++ Domain ++ ".") TypeTXT) =
      .ok (parseQuery NewRR (handleRecordsStep srv ⟨Domain, KeyAuth⟩)
        (SetQuestion ("_acme-challenge." ++ Domain ++ ".") TypeTXT))) :
    (∀ newRR : String → Option RR,
      parseQuery newRR (handleRecordsStep srv ⟨Domain, KeyAuth⟩)
          (SetQuestion ("_acme-challenge." ++ Domain ++ ".") TypeTXT) =
        { Question := [⟨"_acme-challenge." ++ Domain ++ ".", TypeTXT, ClassINET⟩],
          Answer := [newRR (("_acme-challenge." ++ Domain ++ ".") ++ " 60 IN TXT " ++
            base64.RawURLEncoding.EncodeToString (sha256.Sum256 (bytesOf KeyAuth)))] }) ∧
      parseQuery NewRR (handleRecordsStep srv ⟨Domain, KeyAuth⟩)
          (SetQuestion ("_acme-challenge." ++ Domain ++ ".") TypeTXT) =
        { Question := [⟨"_acme-challenge." ++ Domain ++ ".", TypeTXT, ClassINET⟩],
          Answer := [some (RR.TXT ⟨"_acme-challenge." ++ Domain ++ ".", TypeTXT, ClassINET, 60⟩
            [base64.RawURLEncoding.EncodeToString (sha256.Sum256 (bytesOf KeyAuth))])] } ∧
      PreCheck exchange Domain ("_acme-challenge." ++ Domain ++ ".")
        (base64.RawURLEncoding.EncodeToString (sha256.Sum256 (bytesOf KeyAuth))) =
        .returned true none := by
  have hstored : (handleRecordsStep srv ⟨Domain, KeyAuth⟩).TestRecords
      ("_acme-challenge." ++ Domain ++ ".") =
      some (base64.RawURLEncoding.EncodeToString (sha256.Sum256 (bytesOf KeyAuth))) := by
    rw [handleRecordsStep_auto srv _ hauto]
    simp [mapSet, challengeName, recordValue, hhash, Sum256_take_Size]
  have hany : ∀ newRR : String → Option RR,
      parseQuery newRR (handleRecordsStep srv ⟨Domain, KeyAuth⟩)
          (SetQuestion ("_acme-challenge." ++ Domain ++ ".") TypeTXT) =
        { Question := [⟨"_acme-challenge." ++ Domain ++ ".", TypeTXT, ClassINET⟩],
          Answer := [newRR (("_acme-challenge." ++ Domain ++ ".") ++ " 60 IN TXT " ++
            base64.RawURLEncoding.EncodeToString (sha256.Sum256 (bytesOf KeyAuth)))] } := by
    intro newRR
    show parseQuestion newRR _ _ ⟨"_acme-challenge." ++ Domain ++ ".", TypeTXT, ClassINET⟩ = _
    rw [parseQuestion_hit newRR _ _ _ _ ClassINET hstored (digest_ne_empty _)]
    simp [rrLine, SetQuestion]
  have hparse : parseQuery NewRR (handleRecordsStep srv ⟨Domain, KeyAuth⟩)
      (SetQuestion ("_acme-challenge." ++ Domain ++ ".") TypeTXT) =
      { Question := [⟨"_acme-challenge." ++ Domain ++ ".", TypeTXT, ClassINET⟩],
        Answer := [some (RR.TXT ⟨"_acme-challenge." ++ Domain ++ ".", TypeTXT, ClassINET, 60⟩
          [base64.RawURLEncoding.EncodeToString (sha256.Sum256 (bytesOf KeyAuth))])] } := by
    rw [hany NewRR, NewRR_plain _ _ (challengeName_absolute Domain hplain hdom)
      (digest_plain _).1 (digest_ne_empty _) (digest_plain _).2]
  refine ⟨hany, hparse, ?_⟩
  rw [PreCheck_txt exchange Domain _ _ _ _ _ [] (hexchange.trans (congrArg Except.ok hparse)) rfl]
  simp

/-- The scenario of the specification: `{Domain: "service", KeyAuth: "abc123"}` on a fresh
default server.  The TXT answer for `_acme-challenge.service.` carries the digest, and
`PreCheck` with the digest returns `(true, nil)`. -/
theorem ingest_query_precheck_witness :
    base64.RawURLEncoding.EncodeToString (sha256.Sum256 (bytesOf "abc123")) =
        "bKE9UspwyIPg8LsQHkJaiehiTeUdstI5JZOvaoQRgJA" ∧
      parseQuery NewRR
        (handleRecordsStep (NewIntegrationServer NewDefaultIntegrationServerOpts)
          ⟨"service", "abc123"⟩)
        (SetQuestion ("_acme-challenge." ++ "service" ++ ".") TypeTXT) =
      { Question := [⟨"_acme-challenge." ++ "service" ++ ".", TypeTXT, ClassINET⟩],
        Answer := [some (RR.TXT ⟨"_acme-challenge." ++ "service" ++ ".", TypeTXT, ClassINET, 60⟩
          [base64.RawURLEncoding.EncodeToString (sha256.Sum256 (bytesOf "abc123"))])] } ∧
      PreCheck
        (fun m => .ok (parseQuery NewRR
          (handleRecordsStep (NewIntegrationServer NewDefaultIntegrationServerOpts)
            ⟨"service", "abc123"⟩) m))
        "service" ("_acme-challenge." ++ "service" ++ ".")
        (base64.RawURLEncoding.EncodeToString (sha256.Sum256 (bytesOf "abc123"))) =
        .returned true none :=
  ⟨by decide!,
    (ingest_query_precheck
      (fun m => .ok (parseQuery NewRR
        (handleRecordsStep (NewIntegrationServer NewDefaultIntegrationServerOpts)
          ⟨"service", "abc123"⟩) m))
      (NewIntegrationServer NewDefaultIntegrationServerOpts) "service" "abc123"
      rfl rfl (by decide) (by decide!) rfl).2⟩

/-! ## The lock discipline -/

/-- C10, at the failing input.  No run of `parseQuery`, and so none of `handleDnsRequest`, takes
or releases the lock `mu`, while a turn of `handleRecords` writes between `Lock` and `Unlock`.
For the submission `{Domain: "service", KeyAuth: "abc123"}` and a TXT query for
`_acme-challenge.service.`, the schedule below is made of the operations of the two goroutines
in program order, it can run from the free lock, and in it the lookup of the responder happens
inside the critical section of the ingester. -/
theorem parseQuery_reads_without_lock :
    (∀ m : Msg, Op.RLock ∉ parseQueryOps m ∧ Op.Lock ∉ parseQueryOps m) ∧
      (∀ (opcode : Nat) (m : Msg), Op.RLock ∉ handleDnsRequestOps opcode m ∧
        Op.Lock ∉ handleDnsRequestOps opcode m) ∧
      opsOf Goroutine.ingester
          [(Goroutine.ingester, Op.logAppend ⟨"service", "abc123"⟩),
           (Goroutine.ingester, Op.Lock),
           (Goroutine.responder, Op.mapRead "_acme-challenge.service."),
           (Goroutine.ingester, Op.mapWrite "_acme-challenge.service."
             "bKE9UspwyIPg8LsQHkJaiehiTeUdstI5JZOvaoQRgJA"),
           (Goroutine.ingester, Op.Unlock)] =
        handleRecordsOps NewDefaultIntegrationServerOpts ⟨"service", "abc123"⟩ ∧
      opsOf Goroutine.responder
          [(Goroutine.ingester, Op.logAppend ⟨"service", "abc123"⟩),
           (Goroutine.ingester, Op.Lock),
           (Goroutine.responder, Op.mapRead "_acme-challenge.service."),
           (Goroutine.ingester, Op.mapWrite "_acme-challenge.service."
             "bKE9UspwyIPg8LsQHkJaiehiTeUdstI5JZOvaoQRgJA"),
           (Goroutine.ingester, Op.Unlock)] =
        handleDnsRequestOps OpcodeQuery (SetQuestion "_acme-challenge.service." TypeTXT) ∧
      runs ⟨false, 0⟩
          [(Goroutine.ingester, Op.logAppend ⟨"service", "abc123"⟩),
           (Goroutine.ingester, Op.Lock),
           (Goroutine.responder, Op.mapRead "_acme-challenge.service."),
           (Goroutine.ingester, Op.mapWrite "_acme-challenge.service."
             "bKE9UspwyIPg8LsQHkJaiehiTeUdstI5JZOvaoQRgJA"),
           (Goroutine.ingester, Op.Unlock)] = true ∧
      readsDuringWrite ⟨false, 0⟩
          [(Goroutine.ingester, Op.logAppend ⟨"service", "abc123"⟩),
           (Goroutine.ingester, Op.Lock),
           (Goroutine.responder, Op.mapRead "_acme-challenge.service."),
           (Goroutine.ingester, Op.mapWrite "_acme-challenge.service."
             "bKE9UspwyIPg8LsQHkJaiehiTeUdstI5JZOvaoQRgJA"),
           (Goroutine.ingester, Op.Unlock)] = true := by
  have hpq : ∀ m : Msg, Op.RLock ∉ parseQueryOps m ∧ Op.Lock ∉ parseQueryOps m := by
    intro m
    constructor <;>
    · intro hmem
      simp only [parseQueryOps, List.mem_flatMap] at hmem
      obtain ⟨q, _, hq⟩ := hmem
      split at hq <;> simp at hq
  refine ⟨hpq, ?_, by decide!, by decide!, by decide!, by decide!⟩
  intro opcode m
  unfold handleDnsRequestOps
  split
  · exact hpq m
  · simp

end dns
